import Mathlib

/-!
Verification of the spreadsheet formula-evaluation engine of the PacurHoja
component (src/src/components/PacurHoja.tsx).  The file embeds, shallowly and
executably, the two evaluator implementations contained in that file:

* the first component (lines 19-214): getColHeaders, cellToCoords,
  coordsToCell, parseRange and the recursive, path-guarded calculateValue
  (namespace Lazy below);
* the second component (lines 1000-1141 and 1435-1560): the standalone
  coordsToCell / cellToCoords / parseRange utilities, the expression-based
  calculateValue, recalculateSheet and the Cell renderer's formatValue
  (namespace Eager below).

Modelling conventions, stated once:

* JavaScript strings are Lean String values; character-level work happens on
  String.data (List Char).
* JavaScript numbers are modelled by exact rationals, carried as an explicit
  numerator/denominator pair JNum (kept unnormalized: every operation below
  is plain integer arithmetic, and the decimal printers are insensitive to
  the representative).  A non-finite number (NaN, Infinity) is modelled as
  the value none of Option JNum; arithmetic propagates none.  This is exact
  on every value the claims exercise (small decimal fractions, on which
  binary doubles are exact); values where double rounding would differ from
  exact rational arithmetic (such as 0.1 + 0.2) are outside the claims.
  parseFloat conflates an infinite parse result with NaN.
* The dynamic evaluator (new Function applied to the substituted formula) is
  modelled by a tokenizer and an operator-precedence evaluator over the
  arithmetic fragment the engine substitutes into: numeric literals,
  + - * / ** and parentheses (the grammar of spec section 4.5).  A token the
  grammar does not know yields a structural failure, matching the
  SyntaxError / ReferenceError the catch branch turns into the
  invalid-formula sentinel.  JS-isms outside that fragment (the comma and %
  operators, decrement tokens, non-integer exponents of positive bases) are
  not modelled.  An empty substituted expression yields undefined in JS, a
  non-number, which the engine maps to its math-error result; the model does
  the same.
* General recursion is embedded with explicit fuel; letting fuel run out
  yields none.  The fuel a wrapper passes is proved (or, for the inner
  string scanners, chosen as length + 1 so that each step consumes at least
  one character) to be sufficient.
-/

namespace Pacur

/-! ## Character helpers -/

def isUpperAZ (c : Char) : Bool := decide ('A' ≤ c) && decide (c ≤ 'Z')

def isLowerAZ (c : Char) : Bool := decide ('a' ≤ c) && decide (c ≤ 'z')

def isLetterAZ (c : Char) : Bool := isUpperAZ c || isLowerAZ c

def isDigitCh (c : Char) : Bool := decide ('0' ≤ c) && decide (c ≤ '9')

/-- Whitespace for trim / parseFloat; space, tab, newline, carriage return. -/
def isWsCh (c : Char) : Bool := c = ' ' || c = '\t' || c = '\n' || c = '\r'

/-- ASCII uppercase conversion, the fragment of String.prototype.toUpperCase
the formulas exercise. -/
def jsToUpper (c : Char) : Char :=
  match c with
  | 'a' => 'A' | 'b' => 'B' | 'c' => 'C' | 'd' => 'D' | 'e' => 'E' | 'f' => 'F'
  | 'g' => 'G' | 'h' => 'H' | 'i' => 'I' | 'j' => 'J' | 'k' => 'K' | 'l' => 'L'
  | 'm' => 'M' | 'n' => 'N' | 'o' => 'O' | 'p' => 'P' | 'q' => 'Q' | 'r' => 'R'
  | 's' => 'S' | 't' => 'T' | 'u' => 'U' | 'v' => 'V' | 'w' => 'W' | 'x' => 'X'
  | 'y' => 'Y' | 'z' => 'Z'
  | other => other

theorem jsToUpper_eq_self_or_upper (c : Char) : jsToUpper c = c ∨ jsToUpper c ∈
    ['A', 'B', 'C', 'D', 'E', 'F', 'G', 'H', 'I', 'J', 'K', 'L', 'M', 'N', 'O',
     'P', 'Q', 'R', 'S', 'T', 'U', 'V', 'W', 'X', 'Y', 'Z'] := by
  unfold jsToUpper
  split
  all_goals first
    | (left; rfl)
    | (right; decide)

theorem jsToUpper_idem (c : Char) : jsToUpper (jsToUpper c) = jsToUpper c := by
  rcases jsToUpper_eq_self_or_upper c with h | h
  · rw [h, h]
  · have hu : ∀ u ∈ ['A', 'B', 'C', 'D', 'E', 'F', 'G', 'H', 'I', 'J', 'K', 'L',
        'M', 'N', 'O', 'P', 'Q', 'R', 'S', 'T', 'U', 'V', 'W', 'X', 'Y', 'Z'],
        jsToUpper u = u := by decide
    rw [hu _ h]

/-- Decimal digit character for a value below ten. -/
def digitChar (n : Nat) : Char :=
  match n with
  | 0 => '0' | 1 => '1' | 2 => '2' | 3 => '3' | 4 => '4'
  | 5 => '5' | 6 => '6' | 7 => '7' | 8 => '8' | 9 => '9'
  | _ => '0'

def digitVal (c : Char) : Nat := c.toNat - 48

/-- Value of a decimal digit string, most significant first (parseInt base 10). -/
def digitsVal (l : List Char) : Nat := l.foldl (fun a c => a * 10 + digitVal c) 0

/-- Column letter for an index below 26 (COL_HEADERS / charCode arithmetic). -/
def letterChar (n : Nat) : Char :=
  match n with
  | 0 => 'A' | 1 => 'B' | 2 => 'C' | 3 => 'D' | 4 => 'E' | 5 => 'F' | 6 => 'G'
  | 7 => 'H' | 8 => 'I' | 9 => 'J' | 10 => 'K' | 11 => 'L' | 12 => 'M'
  | 13 => 'N' | 14 => 'O' | 15 => 'P' | 16 => 'Q' | 17 => 'R' | 18 => 'S'
  | 19 => 'T' | 20 => 'U' | 21 => 'V' | 22 => 'W' | 23 => 'X' | 24 => 'Y'
  | 25 => 'Z'
  | _ => 'A'

/-- Source: colStr.charCodeAt(i) - 'A'.charCodeAt(0) + 1. -/
def letterVal (c : Char) : Nat := c.toNat - 65 + 1

/-! ## Decimal rendering of naturals (String(n) for n : Nat) -/

def natToCharsAux : Nat → Nat → List Char
  | 0, _ => []
  | f + 1, n =>
    if n < 10 then [digitChar n] else natToCharsAux f (n / 10) ++ [digitChar (n % 10)]

def natToChars (n : Nat) : List Char := natToCharsAux (n + 1) n

/-! ## Bijective base-26 column encoding

Shared by getColHeaders of the first component and coordsToCell of the
second: starting from a 0-based column index, repeatedly emit the letter of
index mod 26 and continue with index div 26 minus one while nonnegative. -/

def encodeColAux : Nat → Nat → List Char
  | 0, _ => []
  | f + 1, c =>
    if c < 26 then [letterChar c] else encodeColAux f (c / 26 - 1) ++ [letterChar (c % 26)]

def encodeCol (c : Nat) : List Char := encodeColAux (c + 1) c

/-! ### Facts about the digit and letter renderings -/

theorem digitVal_digitChar : ∀ n < 10, digitVal (digitChar n) = n := by decide

theorem isDigitCh_digitChar (n : Nat) : isDigitCh (digitChar n) = true := by
  unfold digitChar
  split <;> decide

theorem letterVal_letterChar : ∀ n < 26, letterVal (letterChar n) = n + 1 := by decide

theorem isUpperAZ_letterChar (n : Nat) : isUpperAZ (letterChar n) = true := by
  unfold letterChar
  split <;> decide

theorem not_isUpperAZ_of_isDigitCh {c : Char} (h : isDigitCh c = true) :
    isUpperAZ c = false := by
  unfold isDigitCh at h
  unfold isUpperAZ
  simp only [Bool.and_eq_true, decide_eq_true_eq] at h
  simp only [Bool.and_eq_false_iff, decide_eq_false_iff_not]
  left
  intro hc
  exact absurd (le_trans hc h.2) (by decide)

theorem not_isLetterAZ_of_isDigitCh {c : Char} (h : isDigitCh c = true) :
    isLetterAZ c = false := by
  unfold isDigitCh at h
  simp only [Bool.and_eq_true, decide_eq_true_eq] at h
  unfold isLetterAZ isUpperAZ isLowerAZ
  simp only [Bool.or_eq_false_iff, Bool.and_eq_false_iff, decide_eq_false_iff_not]
  constructor
  · left
    intro hc
    exact absurd (le_trans hc h.2) (by decide)
  · left
    intro hc
    exact absurd (le_trans hc h.2) (by decide)

theorem not_isDigitCh_of_isUpperAZ {c : Char} (h : isUpperAZ c = true) :
    isDigitCh c = false := by
  unfold isUpperAZ at h
  simp only [Bool.and_eq_true, decide_eq_true_eq] at h
  unfold isDigitCh
  simp only [Bool.and_eq_false_iff, decide_eq_false_iff_not]
  right
  intro hc
  exact absurd (le_trans h.1 hc) (by decide)

theorem jsToUpper_of_isUpperAZ {c : Char} (h : isUpperAZ c = true) :
    jsToUpper c = c := by
  unfold jsToUpper
  split
  all_goals first
    | rfl
    | (exact absurd h (by decide))

/-! ### natToChars: digits only, nonempty, and parseInt round-trip -/

theorem natToCharsAux_spec :
    ∀ f n, n < f →
      (∀ c ∈ natToCharsAux f n, isDigitCh c = true) ∧
      natToCharsAux f n ≠ [] ∧
      ∀ a : Nat, (natToCharsAux f n).foldl (fun x c => x * 10 + digitVal c) a =
        a * 10 ^ (natToCharsAux f n).length + n := by
  intro f
  induction f with
  | zero => omega
  | succ g ih =>
    intro n hn
    by_cases hlt : n < 10
    · refine ⟨?_, ?_, ?_⟩
      · intro c hc
        simp only [natToCharsAux, if_pos hlt, List.mem_singleton] at hc
        subst hc
        exact isDigitCh_digitChar n
      · simp [natToCharsAux, if_pos hlt]
      · intro a
        simp only [natToCharsAux, if_pos hlt, List.foldl_cons, List.foldl_nil,
          List.length_singleton, pow_one]
        rw [digitVal_digitChar n hlt]
    · have hdiv : n / 10 < g := by
        have h1 : n / 10 < n := Nat.div_lt_self (by omega) (by omega)
        omega
      obtain ⟨ihd, ihne, ihfold⟩ := ih (n / 10) hdiv
      refine ⟨?_, ?_, ?_⟩
      · intro c hc
        simp only [natToCharsAux, if_neg hlt, List.mem_append, List.mem_singleton] at hc
        rcases hc with hc | hc
        · exact ihd c hc
        · subst hc
          exact isDigitCh_digitChar (n % 10)
      · simp only [natToCharsAux, if_neg hlt]
        intro hcontra
        exact ihne (List.append_eq_nil.mp hcontra).1
      · intro a
        simp only [natToCharsAux, if_neg hlt, List.foldl_append, List.foldl_cons,
          List.foldl_nil, List.length_append, List.length_singleton]
        rw [ihfold a, digitVal_digitChar (n % 10) (Nat.mod_lt n (by omega))]
        have hmod : 10 * (n / 10) + n % 10 = n := Nat.div_add_mod n 10
        calc (a * 10 ^ (natToCharsAux g (n / 10)).length + n / 10) * 10 + n % 10
            = a * (10 ^ (natToCharsAux g (n / 10)).length * 10) +
              (10 * (n / 10) + n % 10) := by ring
          _ = a * 10 ^ ((natToCharsAux g (n / 10)).length + 1) + n := by
              rw [hmod, pow_succ]

theorem natToChars_digits (n : Nat) : ∀ c ∈ natToChars n, isDigitCh c = true :=
  (natToCharsAux_spec (n + 1) n (by omega)).1

theorem natToChars_ne_nil (n : Nat) : natToChars n ≠ [] :=
  (natToCharsAux_spec (n + 1) n (by omega)).2.1

theorem digitsVal_natToChars (n : Nat) : digitsVal (natToChars n) = n := by
  have h := (natToCharsAux_spec (n + 1) n (by omega)).2.2 0
  unfold digitsVal natToChars
  rw [h]
  omega

/-! ### encodeCol: uppercase only, nonempty, and base-26 round-trip -/

theorem encodeColAux_spec :
    ∀ f c, c < f →
      (∀ ch ∈ encodeColAux f c, isUpperAZ ch = true) ∧
      encodeColAux f c ≠ [] ∧
      ∀ a : Nat, (encodeColAux f c).foldl (fun x ch => x * 26 + letterVal ch) a =
        a * 26 ^ (encodeColAux f c).length + (c + 1) := by
  intro f
  induction f with
  | zero => omega
  | succ g ih =>
    intro c hc
    by_cases hlt : c < 26
    · refine ⟨?_, ?_, ?_⟩
      · intro ch hch
        simp only [encodeColAux, if_pos hlt, List.mem_singleton] at hch
        subst hch
        exact isUpperAZ_letterChar c
      · simp [encodeColAux, if_pos hlt]
      · intro a
        simp only [encodeColAux, if_pos hlt, List.foldl_cons, List.foldl_nil,
          List.length_singleton, pow_one]
        rw [letterVal_letterChar c hlt]
    · have hdiv : c / 26 - 1 < g := by
        have h1 : c / 26 < c := Nat.div_lt_self (by omega) (by omega)
        omega
      obtain ⟨ihu, ihne, ihfold⟩ := ih (c / 26 - 1) hdiv
      refine ⟨?_, ?_, ?_⟩
      · intro ch hch
        simp only [encodeColAux, if_neg hlt, List.mem_append, List.mem_singleton] at hch
        rcases hch with hch | hch
        · exact ihu ch hch
        · subst hch
          exact isUpperAZ_letterChar (c % 26)
      · simp only [encodeColAux, if_neg hlt]
        intro hcontra
        exact ihne (List.append_eq_nil.mp hcontra).1
      · intro a
        simp only [encodeColAux, if_neg hlt, List.foldl_append, List.foldl_cons,
          List.foldl_nil, List.length_append, List.length_singleton]
        rw [ihfold a, letterVal_letterChar (c % 26) (Nat.mod_lt c (by omega))]
        have h26 : 1 ≤ c / 26 := by omega
        have hd1 : c / 26 - 1 + 1 = c / 26 := by omega
        have hmod : 26 * (c / 26) + c % 26 = c := Nat.div_add_mod c 26
        rw [hd1]
        calc (a * 26 ^ (encodeColAux g (c / 26 - 1)).length + c / 26) * 26 +
              (c % 26 + 1)
            = a * (26 ^ (encodeColAux g (c / 26 - 1)).length * 26) +
              (26 * (c / 26) + c % 26) + 1 := by ring
          _ = a * 26 ^ ((encodeColAux g (c / 26 - 1)).length + 1) + (c + 1) := by
              rw [hmod, pow_succ]
              ring

theorem encodeCol_upper (c : Nat) : ∀ ch ∈ encodeCol c, isUpperAZ ch = true :=
  (encodeColAux_spec (c + 1) c (by omega)).1

theorem encodeCol_ne_nil (c : Nat) : encodeCol c ≠ [] :=
  (encodeColAux_spec (c + 1) c (by omega)).2.1

theorem foldl_encodeCol (c : Nat) :
    (encodeCol c).foldl (fun x ch => x * 26 + letterVal ch) 0 = c + 1 := by
  have h := (encodeColAux_spec (c + 1) c (by omega)).2.2 0
  unfold encodeCol
  rw [h]
  omega

/-! ## Generic JS-object lookup and list utilities -/

/-- Lookup in a JS object literal modelled as an association list. -/
def jsGet {α : Type} : List (String × α) → String → Option α
  | [], _ => none
  | (k, v) :: rest, key => if k = key then some v else jsGet rest key

/-- Map a fallible function over a list, failing as soon as it does. -/
def mapOptionAll {α β : Type} (f : α → Option β) : List α → Option (List β)
  | [] => some []
  | x :: xs =>
    match f x with
    | none => none
    | some y => (mapOptionAll f xs).map (y :: ·)

/-- String.prototype.split with a single-character separator. -/
def jsSplit (sep : Char) : List Char → List (List Char)
  | [] => [[]]
  | c :: rest =>
    if c = sep then [] :: jsSplit sep rest
    else
      match jsSplit sep rest with
      | [] => [[c]]
      | h :: t => (c :: h) :: t

/-- String.prototype.trim. -/
def trimChars (l : List Char) : List Char :=
  ((l.dropWhile isWsCh).reverse.dropWhile isWsCh).reverse

/-! ## JS numbers as explicit rationals

The denominator is positive in every value the engine builds: literals and
casts use powers of ten, and division is only reached after the zero check
of the evaluator, so the absolute value of the divisor's numerator is
positive. -/

structure JNum : Type where
  n : Int
  d : Nat
  deriving DecidableEq

def jOfNat (m : Nat) : JNum := ⟨m, 1⟩

def jAdd (x y : JNum) : JNum := ⟨x.n * y.d + y.n * x.d, x.d * y.d⟩

def jSub (x y : JNum) : JNum := ⟨x.n * y.d - y.n * x.d, x.d * y.d⟩

def jMul (x y : JNum) : JNum := ⟨x.n * y.n, x.d * y.d⟩

def jNeg (x : JNum) : JNum := ⟨-x.n, x.d⟩

def jIsZero (x : JNum) : Bool := decide (x.n = 0)

def jIsNeg (x : JNum) : Bool := decide (x.n < 0)

/-- Comparison by cross multiplication (denominators are positive). -/
def jLt (x y : JNum) : Bool := decide (x.n * y.d < y.n * x.d)

/-- Division; the caller has ruled out a zero divisor. -/
def jDiv (x y : JNum) : JNum :=
  if 0 ≤ y.n then ⟨x.n * y.d, x.d * y.n.toNat⟩
  else ⟨-(x.n * y.d), x.d * (-y.n).toNat⟩

def jAbs (x : JNum) : JNum := ⟨|x.n|, x.d⟩

def jPowNat (x : JNum) (m : Nat) : JNum := ⟨x.n ^ m, x.d ^ m⟩

/-- Reciprocal; the caller has ruled out zero. -/
def jInv (x : JNum) : JNum :=
  if 0 ≤ x.n then ⟨(x.d : Int), x.n.toNat⟩ else ⟨-(x.d : Int), (-x.n).toNat⟩

/-- Scale by a power of ten with integer exponent. -/
def jMulPow10 (x : JNum) (ex : Int) : JNum :=
  if 0 ≤ ex then ⟨x.n * (10 : Int) ^ ex.toNat, x.d⟩
  else ⟨x.n, x.d * 10 ^ (-ex).toNat⟩

def jHalf : JNum := ⟨1, 2⟩

/-! ## parseFloat -/

/-- Exponent suffix e[sign]digits as parseFloat reads it; none when no
well-formed exponent starts here (parseFloat then stops before the letter). -/
def parseExpSuffix : List Char → Option Int
  | e :: rest =>
    if e = 'e' ∨ e = 'E' then
      match rest with
      | '+' :: r =>
        let d := r.takeWhile isDigitCh
        if d.isEmpty then none else some (digitsVal d : Int)
      | '-' :: r =>
        let d := r.takeWhile isDigitCh
        if d.isEmpty then none else some (-(digitsVal d : Int))
      | r =>
        let d := r.takeWhile isDigitCh
        if d.isEmpty then none else some (digitsVal d : Int)
    else none
  | [] => none

/-- Magnitude part of parseFloat: digits, optional fraction, optional
exponent; none when no digit is found at all (NaN). -/
def parseFloatMag (cs : List Char) : Option JNum :=
  let intDigits := cs.takeWhile isDigitCh
  let afterInt := cs.dropWhile isDigitCh
  let fracDigits :=
    match afterInt with
    | '.' :: r => r.takeWhile isDigitCh
    | _ => []
  let afterFrac :=
    match afterInt with
    | '.' :: r => r.dropWhile isDigitCh
    | _ => afterInt
  if intDigits.isEmpty && fracDigits.isEmpty then none
  else
    let mant : JNum := jAdd (jOfNat (digitsVal intDigits))
      ⟨digitsVal fracDigits, 10 ^ fracDigits.length⟩
    match parseExpSuffix afterFrac with
    | some ex => some (jMulPow10 mant ex)
    | none => some mant

/-- JS parseFloat: skip leading whitespace, optional sign, then the longest
numeric head; none models NaN (an Infinity parse is conflated with NaN,
which the engine's finiteness checks treat the same way). -/
def parseFloat (s : String) : Option JNum :=
  match s.data.dropWhile isWsCh with
  | '+' :: rest => parseFloatMag rest
  | '-' :: rest => (parseFloatMag rest).map jNeg
  | rest => parseFloatMag rest

/-! ## Rendering JS numbers back to strings -/

/-- Floor of a nonnegative rational as a natural number. -/
def floorNonneg (q : JNum) : Nat := q.n.toNat / q.d

def stripTrailingZeroChars (l : List Char) : List Char :=
  (l.reverse.dropWhile (fun c => c = '0')).reverse

/-- Digits of m with a decimal point k places from the right, trailing
fraction zeros removed. -/
def decimalRender (m k : Nat) : List Char :=
  let ip := m / 10 ^ k
  let fr := m % 10 ^ k
  if fr = 0 then natToChars ip
  else
    let frDigits := natToChars fr
    natToChars ip ++ '.' ::
      stripTrailingZeroChars (List.replicate (k - frDigits.length) '0' ++ frDigits)

/-- Smallest power of ten the denominator divides, when the denominator is a
product of twos and fives; the bound 48 is beyond anything the engine
builds. -/
def findPow10 (den : Nat) : Option Nat :=
  (List.range 48).find? (fun k => den ∣ 10 ^ k)

/-- String(n) for a JS number.  Exact decimal fractions print exactly, in
shortest form, as JS prints doubles that carry them exactly; a rational
whose denominator is not a product of twos and fives (reachable only
through AVERAGE over such a count) is approximated by 17 rounded decimals,
mirroring the seventeen significant digits of a double. -/
def qToString (q : JNum) : String :=
  if jIsZero q then "0"
  else
    let a := jAbs q
    let digits :=
      match findPow10 a.d with
      | some k => decimalRender (a.n.toNat * 10 ^ k / a.d) k
      | none => decimalRender (floorNonneg (jAdd (jMulPow10 a 17) jHalf)) 17
    String.mk (if jIsNeg q then '-' :: digits else digits)

def twoDigits (n : Nat) : List Char := [digitChar (n / 10 % 10), digitChar (n % 10)]

/-- Number.prototype.toFixed(2); ties round away from zero (no tie is exact
on the engine's values). -/
def toFixed2 (q : JNum) : String :=
  let a := jAbs q
  let m := floorNonneg (jAdd (jMul a (jOfNat 100)) jHalf)
  let digits := natToChars (m / 100) ++ '.' :: twoDigits (m % 100)
  String.mk (if jIsNeg q then '-' :: digits else digits)

/-- The replace of the pattern dot-zero-zero-end applied after toFixed(2). -/
def stripDot00 (s : String) : String :=
  match s.data.reverse with
  | '0' :: '0' :: '.' :: rest => String.mk rest.reverse
  | _ => s

/-! ## First component (lines 19-214): grid codec -/

namespace Lazy

/-- Source: const COLS = 70. -/
def COLS : Nat := 70

/-- getColHeaders: column headers by the source's bijective base-26 loop. -/
def getColHeaders (count : Nat) : List String :=
  (List.range count).map (fun i => String.mk (encodeCol i))

def colHeaders : List String := getColHeaders COLS

/-- colHeaderMap: header to 1-based column index. -/
def colHeaderMap : List (String × Nat) :=
  colHeaders.enum.map (fun p => (p.2, p.1 + 1))

/-- cellToCoords of the first component: anchored match of letters then
digits, column looked up in colHeaderMap, row by parseInt; the JS
truthiness test turns row 0, like an unknown header, into null. -/
def cellToCoords (cellKey : String) : Option (Nat × Nat) :=
  let cs := cellKey.data
  let letters := cs.takeWhile isUpperAZ
  let rest := cs.dropWhile isUpperAZ
  if letters.isEmpty || rest.isEmpty || !rest.all isDigitCh then none
  else
    match jsGet colHeaderMap (String.mk letters) with
    | none => none
    | some col =>
      let row := digitsVal rest
      if row = 0 then none else some (col, row)

/-- coordsToCell of the first component: colHeaders[col - 1] followed by the
row number; a missing header (including the JS index -1) gives null. -/
def coordsToCell (col row : Nat) : Option String :=
  if col = 0 then none
  else
    match colHeaders.get? (col - 1) with
    | none => none
    | some h => some (h ++ String.mk (natToChars row))

/-- parseRange of the first component: split on the colon, decode both
corners (a single cell is its own range), take min and max per axis, then
walk the rectangle column by column, row by row. -/
def parseRange (range : String) : List String :=
  match jsSplit ':' range.data with
  | [] => []
  | p0 :: restParts =>
    let endKey :=
      match restParts with
      | [] => p0
      | p1 :: _ => p1
    match cellToCoords (String.mk p0), cellToCoords (String.mk endKey) with
    | some s, some e =>
      let minCol := min s.1 e.1
      let maxCol := max s.1 e.1
      let minRow := min s.2 e.2
      let maxRow := max s.2 e.2
      (List.range' minCol (maxCol + 1 - minCol)).flatMap (fun c =>
        (List.range' minRow (maxRow + 1 - minRow)).filterMap (fun r =>
          coordsToCell c r))
    | _, _ => []

end Lazy

/-! ## Second component (lines 1000-1071): standalone codec -/

namespace Eager

/-- First match of letters-then-digits, the unanchored case-insensitive
regex of the second cellToCoords.  At each position a letter run followed by
at least one digit matches; otherwise scanning moves one character right
(re-entering a letter run is harmless: its shorter suffixes fail the same
way the full run did). -/
def findCellMatch : List Char → Option (List Char × List Char)
  | [] => none
  | c :: rest =>
    if isLetterAZ c then
      let letters := c :: rest.takeWhile isLetterAZ
      let digits := (rest.dropWhile isLetterAZ).takeWhile isDigitCh
      if digits.isEmpty then findCellMatch rest else some (letters, digits)
    else findCellMatch rest

/-- coordsToCell of the second component: 0-based column to letters, 0-based
row printed 1-based.  The row is an integer because the inverse can produce
-1 (see cellToCoords below); String(row + 1) then prints a sign. -/
def coordsToCell (row : Int) (col : Nat) : String :=
  let rowStr :=
    if row + 1 < 0 then '-' :: natToChars (row + 1).natAbs
    else natToChars (row + 1).toNat
  String.mk (encodeCol col ++ rowStr)

/-- cellToCoords of the second component: first letters+digits match,
letters uppercased and folded base-26 then decremented, row decremented with
no guard, so a row of digits 0 yields -1. -/
def cellToCoords (cellId : String) : Option (Int × Nat) :=
  match findCellMatch cellId.data with
  | none => none
  | some (letters, digits) =>
    let colStr := letters.map jsToUpper
    let colIndex := colStr.foldl (fun a ch => a * 26 + letterVal ch) 0 - 1
    some ((digitsVal digits : Int) - 1, colIndex)

/-- Closed integer interval as a list, for the rectangle row loop. -/
def intRangeIncl (a b : Int) : List Int :=
  (List.range (b + 1 - a).toNat).map (fun i => a + i)

/-- Closed natural interval as a list, for the rectangle column loop. -/
def natRangeIncl (a b : Nat) : List Nat := List.range' a (b + 1 - a)

/-- parseRange of the second component: requires a colon, decodes both
corners with null checks, then walks rows outer, columns inner. -/
def parseRange (rangeString : String) : List String :=
  if !rangeString.data.contains ':' then []
  else
    match jsSplit ':' rangeString.data with
    | p0 :: p1 :: _ =>
      match cellToCoords (String.mk p0), cellToCoords (String.mk p1) with
      | some s, some e =>
        let minRow := min s.1 e.1
        let maxRow := max s.1 e.1
        let minCol := min s.2 e.2
        let maxCol := max s.2 e.2
        (intRangeIncl minRow maxRow).flatMap (fun r =>
          (natRangeIncl minCol maxCol).map (fun c => coordsToCell r c))
      | _, _ => []
    | _ => []

end Eager

/-! ## The dynamic arithmetic evaluator

Models new Function applied to the substituted formula, on the arithmetic
fragment of spec section 4.5 that substitution produces: numeric literals,
the operators + - * / ** and parentheses.  The outer Option is the throw of
the JS evaluator (SyntaxError on a malformed expression, ReferenceError on
an unknown name; both are caught by the engine); the inner Option JNum is a
JS number, with none standing for a non-finite value (NaN, Infinity), which
the arithmetic propagates and the engine tests with isFinite. -/

inductive Tok : Type
  | num (q : JNum)
  | plus
  | minus
  | star
  | slash
  | powT
  | lp
  | rp
  deriving DecidableEq

/-- Exponent tail of a numeric literal: optional sign then mandatory digits
(a bare e is a syntax error here, unlike for parseFloat). -/
def numLitExp (mant : JNum) (r : List Char) : Option (JNum × List Char) :=
  let signed : Bool × List Char :=
    match r with
    | '+' :: r2 => (false, r2)
    | '-' :: r2 => (true, r2)
    | _ => (false, r)
  let d := signed.2.takeWhile isDigitCh
  if d.isEmpty then none
  else
    let ex : Int := if signed.1 then -(digitsVal d : Int) else (digitsVal d : Int)
    some (jMulPow10 mant ex, signed.2.dropWhile isDigitCh)

/-- Numeric literal: digits, optional fraction (at least one digit in
total), optional exponent. -/
def numLit (cs : List Char) : Option (JNum × List Char) :=
  let intDigits := cs.takeWhile isDigitCh
  let afterInt := cs.dropWhile isDigitCh
  let fracDigits :=
    match afterInt with
    | '.' :: r => r.takeWhile isDigitCh
    | _ => []
  let afterFrac :=
    match afterInt with
    | '.' :: r => r.dropWhile isDigitCh
    | _ => afterInt
  if intDigits.isEmpty && fracDigits.isEmpty then none
  else
    let mant : JNum := jAdd (jOfNat (digitsVal intDigits))
      ⟨digitsVal fracDigits, 10 ^ fracDigits.length⟩
    match afterFrac with
    | e :: r => if e = 'e' ∨ e = 'E' then numLitExp mant r else some (mant, afterFrac)
    | [] => some (mant, [])

/-- Tokenizer; each step consumes at least one character, so length + 1 fuel
never runs out. -/
def tokenizeAux : Nat → List Char → Option (List Tok)
  | 0, _ => none
  | _ + 1, [] => some []
  | f + 1, c :: rest =>
    if isWsCh c then tokenizeAux f rest
    else if c = '+' then (tokenizeAux f rest).map (Tok.plus :: ·)
    else if c = '-' then (tokenizeAux f rest).map (Tok.minus :: ·)
    else if c = '/' then (tokenizeAux f rest).map (Tok.slash :: ·)
    else if c = '(' then (tokenizeAux f rest).map (Tok.lp :: ·)
    else if c = ')' then (tokenizeAux f rest).map (Tok.rp :: ·)
    else if c = '*' then
      match rest with
      | '*' :: r2 => (tokenizeAux f r2).map (Tok.powT :: ·)
      | _ => (tokenizeAux f rest).map (Tok.star :: ·)
    else if isDigitCh c || c = '.' then
      match numLit (c :: rest) with
      | none => none
      | some (q, remainder) => (tokenizeAux f remainder).map (Tok.num q :: ·)
    else none

def tokenize (cs : List Char) : Option (List Tok) := tokenizeAux (cs.length + 1) cs

inductive Op : Type
  | add
  | sub
  | mul
  | div
  | powO
  | negU
  | posU
  | lparen
  deriving DecidableEq

def prec : Op → Nat
  | .add => 1
  | .sub => 1
  | .mul => 2
  | .div => 2
  | .negU => 3
  | .posU => 3
  | .powO => 4
  | .lparen => 0

def rightAssoc : Op → Bool
  | .powO => true
  | .negU => true
  | .posU => true
  | _ => false

/-- JS exponentiation on the rational fragment: integer exponents are
exact; zero to a negative power is Infinity; a fractional exponent leaves
the rationals and is modelled as non-finite (JS would return a finite
irrational for a positive base; no claim exercises that corner). -/
def jPowJS (x y : JNum) : Option JNum :=
  if y.n % (y.d : Int) = 0 then
    let ex := y.n / (y.d : Int)
    if 0 ≤ ex then some (jPowNat x ex.toNat)
    else if jIsZero x then none
    else some (jInv (jPowNat x (-ex).toNat))
  else none

/-- Binary operation on JS numbers; none (non-finite) propagates, division
by zero produces it. -/
def binApp (op : Op) (a b : Option JNum) : Option JNum :=
  match a, b with
  | some x, some y =>
    match op with
    | .add => some (jAdd x y)
    | .sub => some (jSub x y)
    | .mul => some (jMul x y)
    | .div => if jIsZero y then none else some (jDiv x y)
    | .powO => jPowJS x y
    | _ => none
  | _, _ => none

/-- Pop one operator onto the value stack; none is a structural arity
failure (SyntaxError), a pushed inner none is a non-finite value. -/
def applyOp (op : Op) (vals : List (Option JNum)) : Option (List (Option JNum)) :=
  match op, vals with
  | .negU, v :: rest => some (v.map jNeg :: rest)
  | .posU, v :: rest => some (v :: rest)
  | .negU, [] => none
  | .posU, [] => none
  | .lparen, _ => none
  | op2, b :: a :: rest => some (binApp op2 a b :: rest)
  | _, _ => none

/-- Pop operators that bind at least as tightly as an incoming left
associative operator (strictly tighter for a right associative one). -/
def popHigher (p : Nat) (ra : Bool) :
    List Op → List (Option JNum) → Option (List Op × List (Option JNum))
  | [], vals => some ([], vals)
  | op :: ops, vals =>
    if op = Op.lparen then some (Op.lparen :: ops, vals)
    else if decide (prec op > p) || (decide (prec op = p) && !ra) then
      match applyOp op vals with
      | some vals2 => popHigher p ra ops vals2
      | none => none
    else some (op :: ops, vals)

/-- Pop up to and including the matching opening parenthesis. -/
def popToParen :
    List Op → List (Option JNum) → Option (List Op × List (Option JNum))
  | [], _ => none
  | op :: ops, vals =>
    if op = Op.lparen then some (ops, vals)
    else
      match applyOp op vals with
      | some vals2 => popToParen ops vals2
      | none => none

/-- Drain the operator stack at the end of input; exactly one value must
remain and no parenthesis may still be open. -/
def popAll : List Op → List (Option JNum) → Option (Option JNum)
  | [], vals =>
    match vals with
    | [v] => some v
    | _ => none
  | op :: ops, vals =>
    if op = Op.lparen then none
    else
      match applyOp op vals with
      | some vals2 => popAll ops vals2
      | none => none

/-- Operator-precedence evaluation over the token stream.  The boolean says
whether an operand is expected (start of expression, after an operator or
an opening parenthesis), which is what turns + and - into their unary
forms and rejects adjacent operands. -/
def shuntRun :
    List Tok → Bool → List Op → List (Option JNum) → Option (Option JNum)
  | [], _, ops, vals => popAll ops vals
  | t :: ts, expOperand, ops, vals =>
    match t with
    | .num q => if expOperand then shuntRun ts false ops (some q :: vals) else none
    | .lp => if expOperand then shuntRun ts true (Op.lparen :: ops) vals else none
    | .rp =>
      if expOperand then none
      else
        match popToParen ops vals with
        | some (ops2, vals2) => shuntRun ts false ops2 vals2
        | none => none
    | .plus =>
      if expOperand then shuntRun ts true (Op.posU :: ops) vals
      else
        match popHigher (prec Op.add) (rightAssoc Op.add) ops vals with
        | some (ops2, vals2) => shuntRun ts true (Op.add :: ops2) vals2
        | none => none
    | .minus =>
      if expOperand then shuntRun ts true (Op.negU :: ops) vals
      else
        match popHigher (prec Op.sub) (rightAssoc Op.sub) ops vals with
        | some (ops2, vals2) => shuntRun ts true (Op.sub :: ops2) vals2
        | none => none
    | .star =>
      if expOperand then none
      else
        match popHigher (prec Op.mul) (rightAssoc Op.mul) ops vals with
        | some (ops2, vals2) => shuntRun ts true (Op.mul :: ops2) vals2
        | none => none
    | .slash =>
      if expOperand then none
      else
        match popHigher (prec Op.div) (rightAssoc Op.div) ops vals with
        | some (ops2, vals2) => shuntRun ts true (Op.div :: ops2) vals2
        | none => none
    | .powT =>
      if expOperand then none
      else
        match popHigher (prec Op.powO) (rightAssoc Op.powO) ops vals with
        | some (ops2, vals2) => shuntRun ts true (Op.powO :: ops2) vals2
        | none => none

/-- Evaluate a substituted formula string.  An empty expression is the JS
return-undefined case, a defined but non-numeric result, which the engines
route to their math-error sentinel exactly like a non-finite number. -/
def evalArith (cs : List Char) : Option (Option JNum) :=
  match tokenize cs with
  | none => none
  | some [] => some none
  | some toks => shuntRun toks true [] []

/-- The replace of every caret by a double star before evaluation. -/
def caretSub (cs : List Char) : List Char :=
  cs.flatMap (fun c => if c = '^' then ['*', '*'] else [c])

def startsWithEq (s : String) : Bool :=
  match s.data with
  | '=' :: _ => true
  | _ => false

def startsWithHash (s : String) : Bool :=
  match s.data with
  | '#' :: _ => true
  | _ => false

/-! ## First component (lines 135-214): the recursive calculateValue -/

namespace Lazy

/-- Sheet store of the first component: data maps cell key to raw content. -/
abbrev Store := List (String × String)

/-- Source: data[key] with an empty-string default. -/
def getContent (data : Store) (key : String) : String := (jsGet data key).getD ""

/-- Aggregate substitution for one function match: parse each resolved
value, keep only the finite numeric parses, then sum or average; an empty
kept list substitutes 0.  The fallback returns the whole matched text as
the source callback does for an unknown name (unreachable: the regex only
matches SUMA and PROMEDIO). -/
def aggSubstitute (funcName : String) (resolved : List String)
    (matchText : String) : String :=
  let values := resolved.filterMap parseFloat
  if values.isEmpty then "0"
  else
    let func := String.mk (funcName.data.map jsToUpper)
    let sum := values.foldl jAdd (jOfNat 0)
    if func = "SUMA" then qToString sum
    else if func = "PROMEDIO" then qToString (jDiv sum (jOfNat values.length))
    else matchText

/-- Argument part of one function-regex match: at least one character other
than a closing parenthesis, then the closing parenthesis.  A nonempty
dropWhile result here is necessarily headed by the closing parenthesis
itself, the character the regex consumes. -/
def matchFuncArg (fn : String) (body : List Char) :
    Option (String × List Char × List Char) :=
  let arg := body.takeWhile (· != ')')
  match body.dropWhile (· != ')') with
  | [] => none
  | _ :: tail => if arg.isEmpty then none else some (fn, arg, tail)

/-- One attempted match of FUNCTION_REGEX at the current position; the
regex is case sensitive, so only the uppercase spellings match. -/
def matchFuncAt (cs : List Char) : Option (String × List Char × List Char) :=
  if "SUMA(".data.isPrefixOf cs then matchFuncArg "SUMA" (cs.drop 5)
  else if "PROMEDIO(".data.isPrefixOf cs then matchFuncArg "PROMEDIO" (cs.drop 9)
  else none

/-- Replacement for one bare-reference match (the reference-pass callback):
a NaN parse or a sentinel value is coerced to the literal 0, a number is
printed back. -/
def refSubstitute (referencedValue : String) : List Char :=
  match parseFloat referencedValue with
  | none => ['0']
  | some q => if startsWithHash referencedValue then ['0'] else (qToString q).data

/-- Function pass: the global replace of FUNCTION_REGEX.  ev is the
recursive evaluation of a cell at the extended path.  Scanning advances one
character when no match starts here and jumps past the whole match
otherwise, so length + 1 fuel never runs out. -/
def replaceFuncsAux (ev : String → Option String) :
    Nat → List Char → Option (List Char)
  | 0, _ => none
  | _ + 1, [] => some []
  | f + 1, c :: rest =>
    match matchFuncAt (c :: rest) with
    | some (fn, rawArg, tail) =>
      let rangeKeys := parseRange (String.mk (trimChars rawArg))
      match mapOptionAll ev rangeKeys with
      | none => none
      | some resolved =>
        let repl := aggSubstitute fn resolved
          (String.mk (fn.data ++ '(' :: (rawArg ++ [')'])))
        (replaceFuncsAux ev f tail).map (repl.data ++ ·)
    | none => (replaceFuncsAux ev f rest).map (c :: ·)

def replaceFuncs (ev : String → Option String) (cs : List Char) :
    Option (List Char) :=
  replaceFuncsAux ev (cs.length + 1) cs

/-- Reference pass: the global replace of CELL_REFERENCE_REGEX, resolving
each matched key through ev and substituting via refSubstitute. -/
def replaceRefsAux (ev : String → Option String) :
    Nat → List Char → Option (List Char)
  | 0, _ => none
  | _ + 1, [] => some []
  | f + 1, c :: rest =>
    if isUpperAZ c then
      let afterL := rest.dropWhile isUpperAZ
      let digits := afterL.takeWhile isDigitCh
      if digits.isEmpty then (replaceRefsAux ev f rest).map (c :: ·)
      else
        let letters := c :: rest.takeWhile isUpperAZ
        match ev (String.mk (letters ++ digits)) with
        | none => none
        | some v =>
          (replaceRefsAux ev f (afterL.dropWhile isDigitCh)).map
            (refSubstitute v ++ ·)
    else (replaceRefsAux ev f rest).map (c :: ·)

def replaceRefs (ev : String → Option String) (cs : List Char) :
    Option (List Char) :=
  replaceRefsAux ev (cs.length + 1) cs

/-- Steps 5 and 6 of calculateValue: caret to double star, dynamic
evaluation, the two error sentinels, and otherwise toFixed(2) with a bare
trailing .00 stripped. -/
def finishEval (cs : List Char) : String :=
  match evalArith (caretSub cs) with
  | none => "#FÓRMULA_INVÁLIDA"
  | some none => "#ERROR_MATH"
  | some (some q) => stripDot00 (toFixed2 q)

/-- calculateValue of the first component, with explicit fuel for the
recursive resolution of references.  The store is finite and every
recursive call pushes a fresh store key onto the path, so store-size fuel
is enough (calculateValue_total below). -/
def calculateValue (data : Store) : Nat → String → List String → Option String
  | 0, _, _ => none
  | fuel + 1, key, path =>
    let content := getContent data key
    if key ∈ path then some "#CIRCULAR"
    else if !startsWithEq content then some content
    else
      let formula := trimChars (content.data.drop 1)
      let ev := fun k => calculateValue data fuel k (path ++ [key])
      match replaceFuncs ev formula with
      | none => none
      | some f1 =>
        match replaceRefs ev f1 with
        | none => none
        | some f2 => some (finishEval f2)

/-- One top-level evaluation as the grid render performs it: empty path and
store-size fuel. -/
def evaluate (data : Store) (key : String) : Option String :=
  calculateValue data (data.length + 1) key []

/-- Displayed cell text of the first component's grid. -/
def displayValue (data : Store) (key : String) : String :=
  (evaluate data key).getD ""

end Lazy

/-! ## Second component (lines 1079-1141, 1420-1470, 1539-1560) -/

namespace Eager

/-- A JS value that is either a string or a number (the value and
calculatedValue fields range over both). -/
inductive JSVal : Type
  | str (s : String)
  | num (q : JNum)
  deriving DecidableEq

/-- String(v). -/
def jsValToString : JSVal → String
  | .str s => s
  | .num q => qToString q

/-- CellData without the style fields no claim touches (the number format
is passed to formatValue separately, as the renderer does). -/
structure CellData : Type where
  value : String
  formula : Option String := none
  calculatedValue : Option JSVal := none
  deriving DecidableEq

abbrev SheetStore := List (String × CellData)

def isNumCh (c : Char) : Bool := isDigitCh c || c = '.' || c = '-'

/-- The replace of every character outside digits, dot and minus. -/
def stripNonNumeric (s : String) : String := String.mk (s.data.filter isNumCh)

def funcMatchBody (fn : String) (body : List Char) :
    Option (String × List Char) :=
  match body.reverse with
  | ')' :: revArg => if revArg.isEmpty then none else some (fn, revArg.reverse)
  | _ => none

/-- Anchored functionMatch of the second calculateValue: the entire formula
is NAME(arg) with arg nonempty; the greedy dot lets arg reach the final
parenthesis. -/
def funcMatch (cs : List Char) : Option (String × List Char) :=
  if "SUMA(".data.isPrefixOf cs then funcMatchBody "SUMA" (cs.drop 5)
  else if "PROMEDIO(".data.isPrefixOf cs then funcMatchBody "PROMEDIO" (cs.drop 9)
  else none

/-- Value of one range cell as the second calculateValue coerces it: the
calculated value if present, else the raw value; a NaN parse becomes 0
rather than being excluded, and a missing cell contributes 0. -/
def rangeCellValue (sheetData : SheetStore) (cellId : String) : JNum :=
  match jsGet sheetData cellId with
  | some cell =>
    match parseFloat (stripNonNumeric
        (jsValToString (cell.calculatedValue.getD (.str cell.value)))) with
    | some q => q
    | none => jOfNat 0
  | none => jOfNat 0

/-- Reference substitution of the second calculateValue: an existing cell
contributes the numeric characters of its value (possibly nothing at all),
a missing one the literal 0. -/
def refSubstitute (sheetData : SheetStore) (matchStr : String) : List Char :=
  match jsGet sheetData matchStr with
  | some cell =>
    (stripNonNumeric (jsValToString (cell.calculatedValue.getD (.str cell.value)))).data
  | none => ['0']

/-- Reference pass of the second calculateValue: same scan as the first
component's reference pass, with the pure substitution above.  Running out
of fuel yields the empty list; each step consumes at least one character,
so length + 1 fuel never does. -/
def replaceRefsAux (sheetData : SheetStore) : Nat → List Char → List Char
  | 0, _ => []
  | _ + 1, [] => []
  | f + 1, c :: rest =>
    if isUpperAZ c then
      let afterL := rest.dropWhile isUpperAZ
      let digits := afterL.takeWhile isDigitCh
      if digits.isEmpty then c :: replaceRefsAux sheetData f rest
      else
        let letters := c :: rest.takeWhile isUpperAZ
        refSubstitute sheetData (String.mk (letters ++ digits)) ++
          replaceRefsAux sheetData f (afterL.dropWhile isDigitCh)
    else c :: replaceRefsAux sheetData f rest

def replaceRefs (sheetData : SheetStore) (cs : List Char) : List Char :=
  replaceRefsAux sheetData (cs.length + 1) cs

/-- calculateValue of the second component: anchored function handling,
else reference substitution and dynamic evaluation; errors are the strings
of this component, finite results stay numbers. -/
def calculateValue (expression : String) (sheetData : SheetStore) : JSVal :=
  match expression.data with
  | [] => .str expression
  | c :: _ =>
    if c ≠ '=' then .str expression
    else
      let formula := (expression.data.drop 1).map jsToUpper
      match funcMatch formula with
      | some (fn, arg) =>
        let cells := parseRange (String.mk arg)
        let values := cells.map (rangeCellValue sheetData)
        -- the source's filter of NaN keeps everything: the coercion in
        -- rangeCellValue already replaced every NaN by 0
        if fn = "SUMA" then .num (values.foldl jAdd (jOfNat 0))
        else if fn = "PROMEDIO" ∧ values.length ≠ 0 then
          .num (jDiv (values.foldl jAdd (jOfNat 0)) (jOfNat values.length))
        else .str "#ERROR!"
      | none =>
        match evalArith (replaceRefs sheetData formula) with
        | none => .str "#FÓRMULA INVÁLIDA"
        | some none => .str "#REF!"
        | some (some q) => .num q

/-- One cell of the recalculation pass: a formula cell recomputed against
the pre-pass dataset, a plain cell mirroring its raw value. -/
def recalcCell (currentData : SheetStore) (cell : CellData) : CellData :=
  match cell.formula with
  | some f => { cell with calculatedValue := some (calculateValue f currentData) }
  | none => { cell with calculatedValue := some (.str cell.value) }

/-- recalculateSheet: the pass over every key of the dataset. -/
def recalculateSheet (currentData : SheetStore) : SheetStore :=
  currentData.map (fun p => (p.1, recalcCell currentData p.2))

/-- Cell state the edit path of updateCellValue (and the load path of
handleOpen) gives raw content before recalculating: value is the input,
formula only when it starts with the equals sign. -/
def cellOfRaw (raw : String) : CellData :=
  { value := raw
    formula := if startsWithEq raw then some raw else none
    calculatedValue := none }

/-- The second component's store for a raw-content snapshot: hydrate every
cell, then one recalculation pass. -/
def storeOfSnapshot (snap : List (String × String)) : SheetStore :=
  recalculateSheet (snap.map (fun p => (p.1, cellOfRaw p.2)))

/-- Displayed value of the Cell renderer: the calculated value if defined,
else the raw value, else nothing. -/
def displayValue (sheetData : SheetStore) (key : String) : String :=
  match jsGet sheetData key with
  | some d =>
    match d.calculatedValue with
    | some v => jsValToString v
    | none => d.value
  | none => ""

/-- The externally owned number-format tag. -/
inductive NumberFormat : Type
  | general
  | currency
  | percentage
  | thousands
  deriving DecidableEq

/-- Thousands grouping over reversed digits: a comma after every third. -/
def groupRevAux : List Char → Nat → List Char
  | [], _ => []
  | c :: rest, n =>
    if n = 3 then ',' :: c :: groupRevAux rest 1
    else c :: groupRevAux rest (n + 1)

def groupThousands (digits : List Char) : List Char :=
  (groupRevAux digits.reverse 0).reverse

/-- toLocaleString en-US currency: sign, dollar, grouped digits, exactly
two decimals. -/
def formatCurrency (num : JNum) : String :=
  let m := floorNonneg (jAdd (jMul (jAbs num) (jOfNat 100)) jHalf)
  String.mk ((if jIsNeg num then ['-'] else []) ++ '$' ::
    (groupThousands (natToChars (m / 100)) ++ '.' :: twoDigits (m % 100)))

/-- toLocaleString en-US with at most two decimals: grouped digits,
trailing decimal zeros dropped. -/
def formatThousands (num : JNum) : String :=
  let m := floorNonneg (jAdd (jMul (jAbs num) (jOfNat 100)) jHalf)
  let fr := m % 100
  let frPart :=
    if fr = 0 then []
    else '.' :: (if fr % 10 = 0 then [digitChar (fr / 10)] else twoDigits fr)
  String.mk ((if jIsNeg num then ['-'] else []) ++
    groupThousands (natToChars (m / 100)) ++ frPart)

/-- formatValue of the Cell renderer (lines 1435-1451).  A string value is
parsed after stripping non-numeric characters; NaN returns the value
unchanged.  Percentage multiplies by 100 only when the number lies strictly
between -1 and 1, and renders fixed two decimals with no stripping. -/
def formatValue (value : JSVal) (format : Option NumberFormat) : JSVal :=
  let numOpt : Option JNum :=
    match value with
    | .str s => parseFloat (stripNonNumeric s)
    | .num q => some q
  match numOpt with
  | none => value
  | some num =>
    match format with
    | some .currency => .str (formatCurrency num)
    | some .percentage =>
      let numPercent :=
        if jLt num (jOfNat 1) && jLt (jNeg (jOfNat 1)) num
        then jMul num (jOfNat 100) else num
      .str (toFixed2 numPercent ++ "%")
    | some .thousands => .str (formatThousands num)
    | _ => .str (jsValToString value)

end Eager

/-! ## List lemmas for the scans and the termination argument -/

theorem length_dropWhile_le (p : Char → Bool) (l : List Char) :
    (l.dropWhile p).length ≤ l.length := by
  induction l with
  | nil => simp [List.dropWhile]
  | cons c rest ih =>
    simp only [List.dropWhile]
    split
    · exact le_trans ih (Nat.le_succ _)
    · exact le_refl _

theorem takeWhile_append_of_all (p : Char → Bool) (l1 l2 : List Char)
    (h : ∀ c ∈ l1, p c = true) (c2 : Char) (hc2 : p c2 = false) :
    (l1 ++ c2 :: l2).takeWhile p = l1 := by
  induction l1 with
  | nil => simp [List.takeWhile, hc2]
  | cons a rest ih =>
    simp only [List.cons_append, List.takeWhile]
    rw [h a (by simp)]
    rw [List.append_eq, ih (fun x hx => h x (by simp [hx]))]

theorem dropWhile_append_of_all (p : Char → Bool) (l1 l2 : List Char)
    (h : ∀ c ∈ l1, p c = true) (c2 : Char) (hc2 : p c2 = false) :
    (l1 ++ c2 :: l2).dropWhile p = c2 :: l2 := by
  induction l1 with
  | nil => simp [List.dropWhile, hc2]
  | cons a rest ih =>
    simp only [List.cons_append, List.dropWhile]
    rw [h a (by simp)]
    rw [List.append_eq, ih (fun x hx => h x (by simp [hx]))]

theorem takeWhile_all (p : Char → Bool) (l1 : List Char)
    (h : ∀ c ∈ l1, p c = true) : l1.takeWhile p = l1 := by
  induction l1 with
  | nil => rfl
  | cons a rest ih =>
    simp only [List.takeWhile]
    rw [h a (by simp)]
    rw [ih (fun x hx => h x (by simp [hx]))]

theorem dropWhile_all (p : Char → Bool) (l1 : List Char)
    (h : ∀ c ∈ l1, p c = true) : l1.dropWhile p = [] := by
  induction l1 with
  | nil => rfl
  | cons a rest ih =>
    simp only [List.dropWhile]
    rw [h a (by simp)]
    exact ih (fun x hx => h x (by simp [hx]))

theorem jsGet_mem {α : Type} {l : List (String × α)} {k : String} {v : α}
    (h : jsGet l k = some v) : k ∈ l.map Prod.fst := by
  induction l with
  | nil => simp [jsGet] at h
  | cons p rest ih =>
    obtain ⟨k1, v1⟩ := p
    by_cases hk : k1 = k
    · simp [hk]
    · simp only [jsGet, if_neg hk] at h
      simp [ih h]

theorem mapOptionAll_isSome {α β : Type} (f : α → Option β) (l : List α)
    (h : ∀ x ∈ l, (f x).isSome) : (mapOptionAll f l).isSome := by
  induction l with
  | nil => simp [mapOptionAll]
  | cons x xs ih =>
    have hx := h x (by simp)
    obtain ⟨y, hy⟩ := Option.isSome_iff_exists.mp hx
    simp only [mapOptionAll, hy]
    have := ih (fun z hz => h z (by simp [hz]))
    simpa using this

theorem length_filter_le_mono {α : Type} {l : List α} {p q : α → Bool}
    (hpq : ∀ x, q x = true → p x = true) :
    (l.filter q).length ≤ (l.filter p).length := by
  induction l with
  | nil => simp
  | cons a rest ih =>
    by_cases hq : q a = true
    · simp [List.filter_cons, hq, hpq a hq]
      omega
    · have hq2 : q a = false := by simpa using hq
      by_cases hp : p a = true
      · simp [List.filter_cons, hq2, hp]
        omega
      · have hp2 : p a = false := by simpa using hp
        simp [List.filter_cons, hq2, hp2]
        exact ih

theorem option_isSome_map {α β : Type} (f : α → β) (o : Option α) :
    (o.map f).isSome = o.isSome := by
  cases o <;> rfl

theorem length_filter_lt {α : Type} {l : List α} {p q : α → Bool}
    (hpq : ∀ x, q x = true → p x = true) (a : α) (ha : a ∈ l)
    (hpa : p a = true) (hqa : q a = false) :
    (l.filter q).length < (l.filter p).length := by
  induction l with
  | nil => simp at ha
  | cons b rest ih =>
    rcases List.mem_cons.mp ha with hb | hb
    · subst hb
      simp [List.filter_cons, hpa, hqa]
      have := length_filter_le_mono (l := rest) hpq
      omega
    · have hlt := ih hb
      by_cases hq : q b = true
      · simp [List.filter_cons, hq, hpq b hq]
        omega
      · have hq2 : q b = false := by simpa using hq
        by_cases hp : p b = true
        · simp [List.filter_cons, hq2, hp]
          omega
        · have hp2 : p b = false := by simpa using hp
          simp [List.filter_cons, hq2, hp2]
          exact hlt

/-! ## Totality of the first component's evaluator (the cycle-guard bound) -/

namespace Lazy

theorem matchFuncArg_tail_lt {fn fn2 : String} {body arg tail : List Char}
    (h : matchFuncArg fn body = some (fn2, arg, tail)) :
    tail.length < body.length := by
  unfold matchFuncArg at h
  rcases hd : body.dropWhile (· != ')') with _ | ⟨c, tl⟩ <;> rw [hd] at h
  · simp at h
  · by_cases he : (body.takeWhile (· != ')')).isEmpty <;> simp [he] at h
    obtain ⟨-, -, htail⟩ := h
    subst htail
    have hlen := length_dropWhile_le (· != ')') body
    rw [hd] at hlen
    simp only [List.length_cons] at hlen
    omega

theorem matchFuncAt_tail_lt {cs : List Char} {fn : String} {arg tail : List Char}
    (h : matchFuncAt cs = some (fn, arg, tail)) : tail.length < cs.length := by
  unfold matchFuncAt at h
  by_cases h1 : "SUMA(".data.isPrefixOf cs
  · rw [if_pos h1] at h
    have hlt := matchFuncArg_tail_lt h
    have hlen := List.length_drop 5 cs
    omega
  · rw [if_neg h1] at h
    by_cases h2 : "PROMEDIO(".data.isPrefixOf cs
    · rw [if_pos h2] at h
      have hlt := matchFuncArg_tail_lt h
      have hlen := List.length_drop 9 cs
      omega
    · rw [if_neg h2] at h
      simp at h

theorem replaceFuncsAux_isSome (ev : String → Option String)
    (hev : ∀ s, (ev s).isSome) :
    ∀ f cs, cs.length < f → (replaceFuncsAux ev f cs).isSome := by
  intro f
  induction f with
  | zero => omega
  | succ g ih =>
    intro cs hlen
    match cs with
    | [] => simp [replaceFuncsAux]
    | c :: rest =>
      simp only [List.length_cons] at hlen
      cases hm : matchFuncAt (c :: rest) with
      | none =>
        simp only [replaceFuncsAux, hm]
        rw [option_isSome_map]
        exact ih rest (by omega)
      | some trip =>
        obtain ⟨fn, rawArg, tail⟩ := trip
        have htail : tail.length < (c :: rest).length := matchFuncAt_tail_lt hm
        simp only [List.length_cons] at htail
        have hmap := mapOptionAll_isSome ev
          (parseRange (String.mk (trimChars rawArg))) (fun x _ => hev x)
        obtain ⟨resolved, hres⟩ := Option.isSome_iff_exists.mp hmap
        simp only [replaceFuncsAux, hm, hres]
        rw [option_isSome_map]
        exact ih tail (by omega)

theorem replaceRefsAux_isSome (ev : String → Option String)
    (hev : ∀ s, (ev s).isSome) :
    ∀ f cs, cs.length < f → (replaceRefsAux ev f cs).isSome := by
  intro f
  induction f with
  | zero => omega
  | succ g ih =>
    intro cs hlen
    match cs with
    | [] => simp [replaceRefsAux]
    | c :: rest =>
      simp only [List.length_cons] at hlen
      by_cases hu : isUpperAZ c = true
      · by_cases hd : ((rest.dropWhile isUpperAZ).takeWhile isDigitCh).isEmpty
        · simp only [replaceRefsAux, hu, if_true, hd, if_pos]
          rw [option_isSome_map]
          exact ih rest (by omega)
        · have hd2 : ((rest.dropWhile isUpperAZ).takeWhile isDigitCh).isEmpty
              = false := by simpa using hd
          obtain ⟨v, hv⟩ := Option.isSome_iff_exists.mp
            (hev (String.mk ((c :: rest.takeWhile isUpperAZ) ++
              (rest.dropWhile isUpperAZ).takeWhile isDigitCh)))
          simp only [replaceRefsAux, hu, hd2, hv, option_isSome_map,
            Bool.false_eq_true, if_false, if_true]
          have h1 := length_dropWhile_le isUpperAZ rest
          have h2 := length_dropWhile_le isDigitCh (rest.dropWhile isUpperAZ)
          exact ih _ (by omega)
      · simp only [replaceRefsAux, hu]
        simp only [Bool.false_eq_true, if_false]
        rw [option_isSome_map]
        exact ih rest (by omega)

/-- Count of store keys not yet on the evaluation path: the measure the
cycle guard decreases. -/
def newKeys (data : Store) (path : List String) : Nat :=
  ((data.map Prod.fst).filter (fun k => decide (k ∉ path))).length

theorem startsWithEq_getContent_mem {data : Store} {key : String}
    (h : startsWithEq (getContent data key) = true) :
    key ∈ data.map Prod.fst := by
  cases hj : jsGet data key with
  | none =>
    rw [getContent, hj] at h
    simp [startsWithEq] at h
  | some v => exact jsGet_mem hj

theorem newKeys_push {data : Store} {key : String} {path : List String}
    (hmem : key ∉ path) (hkey : key ∈ data.map Prod.fst) :
    newKeys data (path ++ [key]) < newKeys data path := by
  apply length_filter_lt (p := fun k => decide (k ∉ path))
    (q := fun k => decide (k ∉ path ++ [key]))
  · intro x hx
    simp only [decide_eq_true_eq] at hx ⊢
    intro hc
    exact hx (by simp [hc])
  · exact hkey
  · simp [hmem]
  · simp

/-- Store-size fuel always suffices: the cycle guard pushes a fresh store
key onto the path before every recursive round, and a key already on the
path returns at once. -/
theorem calculateValue_total (data : Store) :
    ∀ fuel path key, newKeys data path < fuel →
      (calculateValue data fuel key path).isSome := by
  intro fuel
  induction fuel with
  | zero => omega
  | succ n ih =>
    intro path key hfuel
    by_cases hmem : key ∈ path
    · simp [calculateValue, hmem]
    · by_cases hfm : startsWithEq (getContent data key) = true
      · have hkey := startsWithEq_getContent_mem hfm
        have hdec : newKeys data (path ++ [key]) < n := by
          have := newKeys_push hmem hkey
          omega
        have hev : ∀ s,
            (calculateValue data n s (path ++ [key])).isSome :=
          fun s => ih (path ++ [key]) s hdec
        obtain ⟨f1, hf1⟩ := Option.isSome_iff_exists.mp
          (replaceFuncsAux_isSome _ hev
            ((trimChars ((getContent data key).data.drop 1)).length + 1)
            (trimChars ((getContent data key).data.drop 1))
            (by omega))
        obtain ⟨f2, hf2⟩ := Option.isSome_iff_exists.mp
          (replaceRefsAux_isSome _ hev (f1.length + 1) f1 (by omega))
        simp only [calculateValue, hmem, hfm, replaceFuncs, replaceRefs,
          Bool.not_true, Bool.false_eq_true, if_false, if_true]
        rw [hf1]
        simp only [hf2]
        rfl
      · have hfm2 : startsWithEq (getContent data key) = false := by
          simpa using hfm
        simp [calculateValue, hmem, hfm2]

/-- Every top-level evaluation completes. -/
theorem evaluate_isSome (data : Store) (key : String) :
    (evaluate data key).isSome := by
  apply calculateValue_total
  calc newKeys data [] ≤ (data.map Prod.fst).length := by
        apply List.length_filter_le
    _ = data.length := List.length_map data Prod.fst
    _ < data.length + 1 := by omega

end Lazy

/-! ## Codec round-trips -/

theorem isLetterAZ_of_isUpperAZ {c : Char} (h : isUpperAZ c = true) :
    isLetterAZ c = true := by
  unfold isLetterAZ
  rw [h]
  rfl

theorem map_eq_self_of_mem {l : List Char} {f : Char → Char}
    (h : ∀ a ∈ l, f a = a) : l.map f = l := by
  rw [List.map_congr_left (g := id) h, List.map_id]

theorem data_mk (l : List Char) : (String.mk l).data = l := rfl

namespace Lazy

/-- The 70 grid headers decode through colHeaderMap to their 1-based index. -/
theorem colHeaderMap_lookup :
    ∀ i < 70, jsGet colHeaderMap (String.mk (encodeCol i)) = some (i + 1) := by
  decide

theorem coordsToCell_eq {c : Nat} (r : Nat) (h1 : 1 ≤ c) (h2 : c ≤ 70) :
    coordsToCell c r = some (String.mk (encodeCol (c - 1) ++ natToChars r)) := by
  unfold coordsToCell colHeaders getColHeaders COLS
  rw [if_neg (by omega)]
  have hget : ((List.range 70).map (fun i => String.mk (encodeCol i))).get? (c - 1)
      = some (String.mk (encodeCol (c - 1))) := by
    simp [List.get?_eq_getElem?, List.getElem?_map,
      List.getElem?_range (show c - 1 < 70 by omega)]
  rw [hget]
  rfl

theorem cellToCoords_encode {c r : Nat} (h1 : 1 ≤ c) (h2 : c ≤ 70) (h3 : 1 ≤ r) :
    cellToCoords (String.mk (encodeCol (c - 1) ++ natToChars r)) = some (c, r) := by
  obtain ⟨d, dl, hdig⟩ := List.exists_cons_of_ne_nil (natToChars_ne_nil r)
  have hdigs := natToChars_digits r
  have hdhead : isDigitCh d = true := hdigs d (by rw [hdig]; simp)
  have hupper := encodeCol_upper (c - 1)
  have htk := takeWhile_append_of_all isUpperAZ (encodeCol (c - 1)) dl hupper d
    (not_isUpperAZ_of_isDigitCh hdhead)
  have hdp := dropWhile_append_of_all isUpperAZ (encodeCol (c - 1)) dl hupper d
    (not_isUpperAZ_of_isDigitCh hdhead)
  have hne : (encodeCol (c - 1)).isEmpty = false := by
    rcases he : encodeCol (c - 1) with _ | _
    · exact absurd he (encodeCol_ne_nil (c - 1))
    · rfl
  have halld : (d :: dl).all isDigitCh = true := by
    rw [List.all_eq_true]
    intro x hx
    exact hdigs x (by rw [hdig]; exact hx)
  have hrow : digitsVal (d :: dl) = r := by
    rw [← hdig]
    exact digitsVal_natToChars r
  simp only [cellToCoords, data_mk, hdig, htk, hdp, hne, halld,
    List.isEmpty_cons, Bool.false_or, Bool.not_true, Bool.or_false,
    Bool.false_eq_true, if_false]
  rw [colHeaderMap_lookup (c - 1) (by omega)]
  have hr0 : ¬ r = 0 := by omega
  have hc : c - 1 + 1 = c := by omega
  simp [hrow, hr0, hc]

/-- Round-trip of the first component's codec on its own domain: columns
within the seventy generated headers. -/
theorem codec_roundtrip_bounded {c r : Nat} (h1 : 1 ≤ c) (h2 : c ≤ 70) (h3 : 1 ≤ r) :
    (coordsToCell c r).bind cellToCoords = some (c, r) := by
  rw [coordsToCell_eq r h1 h2]
  exact cellToCoords_encode h1 h2 h3

end Lazy

namespace Eager

/-- Round-trip of the second component's codec, for every 0-based row and
column. -/
theorem codec_roundtrip_all (row col : Nat) :
    cellToCoords (coordsToCell (row : Int) col) = some ((row : Int), col) := by
  obtain ⟨u, us, henc⟩ := List.exists_cons_of_ne_nil (encodeCol_ne_nil col)
  obtain ⟨d, dl, hdig⟩ := List.exists_cons_of_ne_nil (natToChars_ne_nil (row + 1))
  have hupper := encodeCol_upper col
  have hdigs := natToChars_digits (row + 1)
  have hdhead : isDigitCh d = true := hdigs d (by rw [hdig]; simp)
  have huhead : isUpperAZ u = true := hupper u (by rw [henc]; simp)
  have hustail : ∀ a ∈ us, isLetterAZ a = true := fun a ha =>
    isLetterAZ_of_isUpperAZ (hupper a (by rw [henc]; simp [ha]))
  have hrowstr : coordsToCell (row : Int) col
      = String.mk (encodeCol col ++ natToChars (row + 1)) := by
    unfold coordsToCell
    rw [if_neg (by omega)]
    have ht : ((row : Int) + 1).toNat = row + 1 := by omega
    rw [ht]
  have htk := takeWhile_append_of_all isLetterAZ us dl hustail d
    (not_isLetterAZ_of_isDigitCh hdhead)
  have hdp := dropWhile_append_of_all isLetterAZ us dl hustail d
    (not_isLetterAZ_of_isDigitCh hdhead)
  have htkd := takeWhile_all isDigitCh (d :: dl)
    (fun x hx => hdigs x (by rw [hdig]; exact hx))
  have hmapup : (u :: us).map jsToUpper = u :: us := by
    apply map_eq_self_of_mem
    intro a ha
    exact jsToUpper_of_isUpperAZ (hupper a (by rw [henc]; exact ha))
  have hfold : (u :: us).foldl (fun a ch => a * 26 + letterVal ch) 0 = col + 1 := by
    rw [← henc]
    exact foldl_encodeCol col
  have hdv : digitsVal (d :: dl) = row + 1 := by
    rw [← hdig]
    exact digitsVal_natToChars (row + 1)
  rw [hrowstr]
  simp only [cellToCoords, data_mk, henc, hdig, List.cons_append,
    findCellMatch, isLetterAZ_of_isUpperAZ huhead, htk, hdp, htkd,
    List.isEmpty_cons, Bool.false_eq_true, if_false, if_true, hmapup,
    hfold, hdv]
  have e1 : ((row + 1 : Nat) : Int) - 1 = (row : Int) := by omega
  have e2 : col + 1 - 1 = col := by omega
  rw [e1, e2]

end Eager

/-! ## Corner symmetry of the range resolvers -/

theorem jsSplit_no_sep {sep : Char} {t : List Char} (ht : sep ∉ t) :
    jsSplit sep t = [t] := by
  induction t with
  | nil => rfl
  | cons c rest ih =>
    have hc : ¬ c = sep := fun h => ht (by simp [h])
    simp only [jsSplit, if_neg hc]
    rw [ih (fun h => ht (by simp [h]))]

theorem jsSplit_append {sep : Char} {s : List Char} (t : List Char)
    (hs : sep ∉ s) : jsSplit sep (s ++ sep :: t) = s :: jsSplit sep t := by
  induction s with
  | nil => simp [jsSplit]
  | cons c rest ih =>
    have hc : ¬ c = sep := fun h => hs (by simp [h])
    simp only [List.cons_append, jsSplit, if_neg hc]
    rw [List.append_eq, ih (fun h => hs (by simp [h]))]

theorem lazy_parseRange_comm (s t : List Char) (hs : ':' ∉ s) (ht : ':' ∉ t) :
    Lazy.parseRange (String.mk (s ++ ':' :: t))
      = Lazy.parseRange (String.mk (t ++ ':' :: s)) := by
  unfold Lazy.parseRange
  rw [data_mk, data_mk, jsSplit_append t hs, jsSplit_no_sep ht,
    jsSplit_append s ht, jsSplit_no_sep hs]
  rcases hcs : Lazy.cellToCoords (String.mk s) with _ | cs <;>
    rcases hct : Lazy.cellToCoords (String.mk t) with _ | ct <;>
      simp only [hcs, hct]
  rw [Nat.min_comm cs.1 ct.1, Nat.max_comm cs.1 ct.1,
    Nat.min_comm cs.2 ct.2, Nat.max_comm cs.2 ct.2]

theorem lazy_calculateValue_circular (data : Lazy.Store) (fuel : Nat)
    (key : String) (path : List String) (h : key ∈ path) :
    Lazy.calculateValue data (fuel + 1) key path = some "#CIRCULAR" := by
  simp [Lazy.calculateValue, h]

theorem lazy_aggSubstitute_excludes (fn mt : String) (pre post : List String)
    (v : String) (hv : parseFloat v = none) :
    Lazy.aggSubstitute fn (pre ++ v :: post) mt
      = Lazy.aggSubstitute fn (pre ++ post) mt := by
  simp only [Lazy.aggSubstitute, List.filterMap_append, List.filterMap_cons, hv]

theorem eager_parseRange_comm (s t : List Char) (hs : ':' ∉ s) (ht : ':' ∉ t) :
    Eager.parseRange (String.mk (s ++ ':' :: t))
      = Eager.parseRange (String.mk (t ++ ':' :: s)) := by
  unfold Eager.parseRange
  have hin1 : (s ++ ':' :: t).contains ':' = true :=
    List.elem_eq_true_of_mem (by simp)
  have hin2 : (t ++ ':' :: s).contains ':' = true :=
    List.elem_eq_true_of_mem (by simp)
  rw [data_mk, data_mk, hin1, hin2]
  rw [jsSplit_append t hs, jsSplit_no_sep ht,
    jsSplit_append s ht, jsSplit_no_sep hs]
  rcases hcs : Eager.cellToCoords (String.mk s) with _ | cs <;>
    rcases hct : Eager.cellToCoords (String.mk t) with _ | ct <;>
      simp only [hcs, hct, Bool.not_true, Bool.false_eq_true, if_false]
  rw [min_comm cs.1 ct.1, max_comm cs.1 ct.1,
    Nat.min_comm cs.2 ct.2, Nat.max_comm cs.2 ct.2]

/-! ## The math-error path of the first evaluator -/

theorem lazy_calculateValue_mathError (data : Lazy.Store) (fuel : Nat)
    (key : String) (path : List String) (f1 f2 : List Char)
    (hmem : key ∉ path)
    (hfm : startsWithEq (Lazy.getContent data key) = true)
    (hf1 : Lazy.replaceFuncs
      (fun k => Lazy.calculateValue data fuel k (path ++ [key]))
      (trimChars ((Lazy.getContent data key).data.drop 1)) = some f1)
    (hf2 : Lazy.replaceRefs
      (fun k => Lazy.calculateValue data fuel k (path ++ [key])) f1 = some f2)
    (heval : evalArith (caretSub f2) = some none) :
    Lazy.calculateValue data (fuel + 1) key path = some "#ERROR_MATH" := by
  simp only [Lazy.replaceFuncs] at hf1
  simp only [Lazy.replaceRefs] at hf2
  simp only [Lazy.calculateValue, hmem, hfm, Lazy.replaceFuncs,
    Lazy.replaceRefs, Bool.not_true, Bool.false_eq_true, if_false, if_true]
  rw [hf1]
  simp only [hf2]
  simp only [Lazy.finishEval, heval]

/-! ## Shape of every displayed value (for the sentinel-prefix claim) -/

theorem isDigitCh_ne_hash {c : Char} (h : isDigitCh c = true) : c ≠ '#' := by
  intro hc
  subst hc
  exact absurd h (by decide)

theorem toFixed2_head (q : JNum) :
    ∃ c l, (toFixed2 q).data = c :: l ∧ (c = '-' ∨ isDigitCh c = true) := by
  have hne := natToChars_ne_nil
    (floorNonneg (jAdd (jMul (jAbs q) (jOfNat 100)) jHalf) / 100)
  obtain ⟨d, dl, hd⟩ := List.exists_cons_of_ne_nil hne
  have hdig : isDigitCh d = true := natToChars_digits _ d (by rw [hd]; simp)
  unfold toFixed2
  cases hneg : jIsNeg q
  · refine ⟨d, dl ++ '.' :: twoDigits
      (floorNonneg (jAdd (jMul (jAbs q) (jOfNat 100)) jHalf) % 100), ?_,
      Or.inr hdig⟩
    simp only [Bool.false_eq_true, if_false, data_mk]
    rw [hd]
    simp
  · refine ⟨'-', natToChars
        (floorNonneg (jAdd (jMul (jAbs q) (jOfNat 100)) jHalf) / 100) ++
      '.' :: twoDigits
        (floorNonneg (jAdd (jMul (jAbs q) (jOfNat 100)) jHalf) % 100), ?_,
      Or.inl rfl⟩
    simp [hneg, data_mk]

theorem stripDot00_head {s : String} {c : Char} {l : List Char}
    (hs : s.data = c :: l) :
    (stripDot00 s).data = [] ∨ ∃ l2, (stripDot00 s).data = c :: l2 := by
  unfold stripDot00
  split
  next rest hrev =>
    have hsd : s.data = rest.reverse ++ ['.', '0', '0'] := by
      have h2 := congrArg List.reverse hrev
      simpa using h2
    cases hr : rest.reverse with
    | nil =>
      left
      simp [data_mk, hr]
    | cons b bs =>
      right
      rw [hr] at hsd
      rw [hsd] at hs
      simp only [List.cons_append] at hs
      injection hs with hbc hrest
      refine ⟨bs, ?_⟩
      simp [data_mk, hr, hbc]
  next =>
    right
    exact ⟨l, hs⟩

/-- Every defined result of the first evaluator is the raw content, one of
the three sentinels, or a formatted number, which never begins with the
sentinel marker. -/
theorem lazy_calculateValue_shape (data : Lazy.Store) (fuel : Nat)
    (key : String) (path : List String) (r : String)
    (h : Lazy.calculateValue data fuel key path = some r) :
    r = Lazy.getContent data key ∨ r = "#CIRCULAR" ∨ r = "#FÓRMULA_INVÁLIDA" ∨
      r = "#ERROR_MATH" ∨ r.data.head? ≠ some '#' := by
  match fuel with
  | 0 => simp [Lazy.calculateValue] at h
  | fuel + 1 =>
    by_cases hmem : key ∈ path
    · simp only [Lazy.calculateValue, hmem, if_true, Option.some.injEq] at h
      right
      left
      exact h.symm
    · by_cases hfm : startsWithEq (Lazy.getContent data key) = true
      · simp only [Lazy.calculateValue, hmem, hfm, Bool.not_true,
          Bool.false_eq_true, if_false, if_true] at h
        unfold Lazy.replaceFuncs Lazy.replaceRefs at h
        rcases h1 : Lazy.replaceFuncsAux
            (fun k => Lazy.calculateValue data fuel k (path ++ [key]))
            ((trimChars ((Lazy.getContent data key).data.drop 1)).length + 1)
            (trimChars ((Lazy.getContent data key).data.drop 1)) with _ | f1 <;>
          rw [h1] at h
        · simp at h
        · rcases h2 : Lazy.replaceRefsAux
              (fun k => Lazy.calculateValue data fuel k (path ++ [key]))
              (f1.length + 1) f1 with _ | f2 <;> simp only [h2] at h
          · simp at h
          · have hr : r = Lazy.finishEval f2 := by
              simpa using h.symm
            subst hr
            unfold Lazy.finishEval
            rcases he : evalArith (caretSub f2) with _ | v
            · right; right; left; rfl
            · rcases v with _ | q
              · right; right; right; left; rfl
              · right; right; right; right
                obtain ⟨c, lc, hcl, hc⟩ := toFixed2_head q
                rcases stripDot00_head hcl with hnil | ⟨l2, hl2⟩
                · rw [hnil]
                  simp
                · rw [hl2]
                  rcases hc with hc | hc
                  · subst hc
                    simp
                  · simp only [List.head?_cons, ne_eq, Option.some.injEq]
                    exact isDigitCh_ne_hash hc
      · have hfm2 : startsWithEq (Lazy.getContent data key) = false := by
          simpa using hfm
        simp only [Lazy.calculateValue, hmem, hfm2, Bool.not_false, if_true,
          if_false, Option.some.injEq] at h
        left
        exact h.symm

/-! ## Case insensitivity of the second evaluator -/

/-- The second calculateValue uppercases the whole formula before matching,
so any spelling of the body evaluates as its uppercase spelling. -/
theorem eager_calculateValue_toUpper (cs : List Char) (sd : Eager.SheetStore) :
    Eager.calculateValue (String.mk ('=' :: cs)) sd
      = Eager.calculateValue (String.mk ('=' :: cs.map jsToUpper)) sd := by
  have hup : (cs.map jsToUpper).map jsToUpper = cs.map jsToUpper := by
    rw [List.map_map]
    exact List.map_congr_left (fun a _ => jsToUpper_idem a)
  simp only [Eager.calculateValue, data_mk, List.drop_succ_cons,
    List.drop_zero, ne_eq, not_true_eq_false, if_false, hup]

/-! ## Agreement of the two evaluators on non-formula content -/

theorem jsGet_map {α β : Type} (f : String × α → β) (l : List (String × α))
    (key : String) :
    jsGet (l.map (fun p => (p.1, f p))) key
      = (jsGet l key).map (fun v => f (key, v)) := by
  induction l with
  | nil => rfl
  | cons p rest ih =>
    obtain ⟨k, v⟩ := p
    by_cases hk : k = key
    · subst hk
      simp [jsGet]
    · simp [jsGet, hk, ih]

theorem lazy_evaluate_raw {data : Lazy.Store} {key : String}
    (h : startsWithEq (Lazy.getContent data key) = false) :
    Lazy.evaluate data key = some (Lazy.getContent data key) := by
  unfold Lazy.evaluate
  simp [Lazy.calculateValue, h]

theorem eager_displayValue_raw {snap : List (String × String)} {key : String}
    (h : startsWithEq ((jsGet snap key).getD "") = false) :
    Eager.displayValue (Eager.storeOfSnapshot snap) key
      = (jsGet snap key).getD "" := by
  unfold Eager.displayValue Eager.storeOfSnapshot Eager.recalculateSheet
  rw [jsGet_map (fun p => Eager.recalcCell
    (List.map (fun p => (p.1, Eager.cellOfRaw p.2)) snap) p.2)]
  rw [jsGet_map (fun p => Eager.cellOfRaw p.2) snap key]
  cases hj : jsGet snap key with
  | none => simp
  | some raw =>
    rw [hj] at h
    simp only [Option.getD_some] at h
    simp [Eager.recalcCell, Eager.cellOfRaw, h, Eager.jsValToString]

/-! ## The claims -/

/-- C1, counterexample: with A1 holding the formula that references A1
itself, the top-level evaluation displays 0, not the Circular sentinel: the
recursive call does return Circular, but the reference pass coerces the
sentinel to the literal 0.  The same happens for the mutual cycle between
A1 and B1, from either entry. -/
theorem claim_C1_counterexample :
    Lazy.evaluate [("A1", "=A1")] "A1" = some "0" ∧
    Lazy.evaluate [("A1", "=A1")] "A1" ≠ some "#CIRCULAR" ∧
    Lazy.evaluate [("A1", "=B1"), ("B1", "=A1")] "A1" = some "0" ∧
    Lazy.evaluate [("A1", "=B1"), ("B1", "=A1")] "B1" = some "0" := by
  refine ⟨by decide, by decide, by decide, by decide⟩

/-- C1 (amended): the cycle guard fires inside the recursive resolution -
whenever the requested cell is already on the evaluation path the evaluator
returns the Circular sentinel - but a top-level evaluation of a
self-referencing cell (or either member of a mutual cycle) starts with an
empty path, so the sentinel surfaces one level down, is coerced to 0 by the
reference-substitution policy, and the displayed value is 0. -/
theorem claim_C1 :
    (∀ (data : Lazy.Store) (fuel : Nat) (key : String) (path : List String),
      key ∈ path →
      Lazy.calculateValue data (fuel + 1) key path = some "#CIRCULAR") ∧
    Lazy.evaluate [("A1", "=A1")] "A1" = some "0" ∧
    Lazy.evaluate [("A1", "=B1"), ("B1", "=A1")] "A1" = some "0" ∧
    Lazy.evaluate [("A1", "=B1"), ("B1", "=A1")] "B1" = some "0" := by
  refine ⟨lazy_calculateValue_circular, by decide, by decide, by decide⟩

/-- C1, witness: the cycle-guard branch of the amended claim evaluated at a
concrete store, cell and path. -/
theorem claim_C1_witness :
    Lazy.calculateValue [("A1", "=A1")] 1 "A1" ["A1"] = some "#CIRCULAR" :=
  claim_C1.1 [("A1", "=A1")] 0 "A1" ["A1"] (by decide)

/-- C2, counterexample: the lazy per-read evaluator and the eager
whole-sheet evaluator disagree on the snapshot where A1 holds the formula
five halves: the lazy path formats through toFixed(2) and displays 2.50,
the eager path stores the number and displays its plain string 2.5. -/
theorem claim_C2_counterexample :
    Lazy.displayValue [("A1", "=5/2")] "A1" = "2.50" ∧
    Eager.displayValue (Eager.storeOfSnapshot [("A1", "=5/2")]) "A1" = "2.5" ∧
    ("2.50" : String) ≠ "2.5" := by
  refine ⟨by decide, by decide, by decide⟩

/-- C2 (amended): the two recalculation policies agree exactly on cells
whose raw content is not a formula - both display the raw content verbatim
(and nothing for a missing cell); on formula cells they can disagree. -/
theorem claim_C2 :
    ∀ (snap : List (String × String)) (key : String),
      startsWithEq ((jsGet snap key).getD "") = false →
      Lazy.displayValue snap key
        = Eager.displayValue (Eager.storeOfSnapshot snap) key := by
  intro snap key h
  unfold Lazy.displayValue
  rw [lazy_evaluate_raw h, eager_displayValue_raw h]
  rfl

/-- C2, witness: the agreement on non-formula content at a concrete
snapshot. -/
theorem claim_C2_witness :
    Lazy.displayValue [("A1", "hello")] "A1"
      = Eager.displayValue (Eager.storeOfSnapshot [("A1", "hello")]) "A1" :=
  claim_C2 [("A1", "hello")] "A1" (by decide)

/-- C3, counterexample: the first component's codec cannot encode column 71
(its header table stops at the 70 configured columns), so the claimed
round trip over every column up to 702 fails there: no address string is
produced and the round-trip equation does not hold at (71, 1). -/
theorem claim_C3_counterexample :
    Lazy.coordsToCell 71 1 = none ∧
    (Lazy.coordsToCell 71 1).bind Lazy.cellToCoords ≠ some (71, 1) := by
  refine ⟨by decide, by decide⟩

/-- C3 (amended): the standalone codec of the second component round-trips
for every 0-based row and column - in particular for the claimed ranges,
columns 1 to 702 and rows 1 to 100000 - while the first component's codec
is defined only on its 70 generated headers, where it round-trips for every
row of the claimed range. -/
theorem claim_C3 :
    (∀ row col : Nat,
      Eager.cellToCoords (Eager.coordsToCell (row : Int) col)
        = some ((row : Int), col)) ∧
    (∀ c r : Nat, 1 ≤ c → c ≤ 70 → 1 ≤ r →
      (Lazy.coordsToCell c r).bind Lazy.cellToCoords = some (c, r)) :=
  ⟨Eager.codec_roundtrip_all, fun _ _ h1 h2 h3 => Lazy.codec_roundtrip_bounded h1 h2 h3⟩

/-- C3, witness: both round trips at concrete corners of the claimed
ranges - the second codec at the 702nd column and 100000th row, the first
at its last header (the two-letter column BR) and row 100000. -/
theorem claim_C3_witness :
    Eager.cellToCoords (Eager.coordsToCell ((99999 : Nat) : Int) 701)
      = some (((99999 : Nat) : Int), 701) ∧
    (Lazy.coordsToCell 70 100000).bind Lazy.cellToCoords = some (70, 100000) :=
  ⟨claim_C3.1 99999 701,
    claim_C3.2 70 100000 (by decide) (by decide) (by decide)⟩

/-- C4, counterexample: the second evaluator - cited by the claim for its
range-value coercion - treats a non-numeric range member as zero rather
than excluding it: over the range holding 5 and text, the member text is
coerced to the number 0, and AVERAGE displays 2.5, the mean of the two
members 5 and 0, where exclusion would display 5. -/
theorem claim_C4_counterexample :
    Eager.rangeCellValue (Eager.storeOfSnapshot
      [("A1", "5"), ("A2", "text"), ("A3", "=PROMEDIO(A1:A2)")]) "A2"
      = jOfNat 0 ∧
    Eager.displayValue (Eager.storeOfSnapshot
      [("A1", "5"), ("A2", "text"), ("A3", "=PROMEDIO(A1:A2)")]) "A3"
      = "2.5" ∧
    ("2.5" : String) ≠ "5" := by
  refine ⟨by decide, by decide, by decide⟩

/-- C4 (amended): the first evaluator's aggregate substitution keeps
exactly the values whose parseFloat is a finite number, so a member whose
parse fails - any non-numeric text, and every sentinel, which begins with
the hash the number grammar rejects - is excluded outright: removing it
leaves the substitution unchanged, SUM over 5 and text yields 5, and
AVERAGE over the same range also yields 5.  The second evaluator instead
coerces every range member whose parse fails to the number 0 - so its SUM
still yields 5, but its AVERAGE yields 2.5. -/
theorem claim_C4 :
    (∀ (fn mt : String) (pre post : List String) (v : String),
      parseFloat v = none →
      Lazy.aggSubstitute fn (pre ++ v :: post) mt
        = Lazy.aggSubstitute fn (pre ++ post) mt) ∧
    (∀ (sd : Eager.SheetStore) (cellId : String) (cell : Eager.CellData),
      jsGet sd cellId = some cell →
      parseFloat (Eager.stripNonNumeric (Eager.jsValToString
        (cell.calculatedValue.getD (.str cell.value)))) = none →
      Eager.rangeCellValue sd cellId = jOfNat 0) ∧
    parseFloat "text" = none ∧
    parseFloat "#CIRCULAR" = none ∧
    parseFloat "#ERROR_MATH" = none ∧
    parseFloat "#FÓRMULA_INVÁLIDA" = none ∧
    Lazy.evaluate [("A1", "5"), ("A2", "text"), ("A3", "=SUMA(A1:A2)")] "A3"
      = some "5" ∧
    Lazy.evaluate [("A1", "5"), ("A2", "text"), ("A3", "=PROMEDIO(A1:A2)")] "A3"
      = some "5" ∧
    Eager.displayValue (Eager.storeOfSnapshot
      [("A1", "5"), ("A2", "text"), ("A3", "=SUMA(A1:A2)")]) "A3" = "5" ∧
    Eager.displayValue (Eager.storeOfSnapshot
      [("A1", "5"), ("A2", "text"), ("A3", "=PROMEDIO(A1:A2)")]) "A3"
      = "2.5" := by
  refine ⟨lazy_aggSubstitute_excludes, ?_, by decide, by decide, by decide,
    by decide, by decide, by decide, by decide, by decide⟩
  intro sd cellId cell hget hparse
  simp only [Eager.rangeCellValue, hget, hparse]

/-- C4, witness: the lazy exclusion equation instantiated at the concrete
resolved values of the SUM example, and the eager zero-coercion
instantiated at a concrete store holding the text cell. -/
theorem claim_C4_witness :
    (Lazy.aggSubstitute "SUMA" (["5"] ++ "text" :: []) "SUMA(A1:A2)"
      = Lazy.aggSubstitute "SUMA" (["5"] ++ []) "SUMA(A1:A2)") ∧
    Eager.rangeCellValue [("A2", ⟨"text", none, some (.str "text")⟩)] "A2"
      = jOfNat 0 :=
  ⟨claim_C4.1 "SUMA" "SUMA(A1:A2)" ["5"] [] "text" (by decide),
    claim_C4.2.1 [("A2", ⟨"text", none, some (.str "text")⟩)] "A2"
      ⟨"text", none, some (.str "text")⟩ (by decide) (by decide)⟩

/-- C5, counterexample: the first evaluator's function regex is case
sensitive, so the lowercase spelling is not recognized: it survives the
function pass, its cell references are substituted bare, and the dynamic
evaluation fails with the invalid-formula sentinel, while the uppercase
spelling of the same formula yields 5. -/
theorem claim_C5_counterexample :
    Lazy.evaluate [("A1", "5"), ("A3", "=suma(A1:A1)")] "A3"
      = some "#FÓRMULA_INVÁLIDA" ∧
    Lazy.evaluate [("A1", "5"), ("A3", "=SUMA(A1:A1)")] "A3" = some "5" ∧
    some ("#FÓRMULA_INVÁLIDA" : String) ≠ some "5" := by
  refine ⟨by decide, by decide, by decide⟩

/-- C5 (amended): only the second evaluator is case insensitive - it
uppercases the formula body first, so every spelling evaluates exactly as
its uppercase spelling; the first evaluator recognizes only the uppercase
SUMA and PROMEDIO, and a lowercase call falls through to the
invalid-formula sentinel. -/
theorem claim_C5 :
    (∀ (cs : List Char) (sd : Eager.SheetStore),
      Eager.calculateValue (String.mk ('=' :: cs)) sd
        = Eager.calculateValue (String.mk ('=' :: cs.map jsToUpper)) sd) ∧
    Lazy.evaluate [("A1", "5"), ("A3", "=SUMA(A1:A1)")] "A3" = some "5" ∧
    Lazy.evaluate [("A1", "5"), ("A3", "=Suma(A1:A1)")] "A3"
      = some "#FÓRMULA_INVÁLIDA" := by
  refine ⟨eager_calculateValue_toUpper, by decide, by decide⟩

/-- C6, counterexample: a numeric result of one half with the Percentage
tag displays 50.00% - the formatter uses fixed two decimals with no
stripping - not the claimed 50%. -/
theorem claim_C6_counterexample :
    Eager.formatValue (.num ⟨1, 2⟩) (some .percentage) = .str "50.00%" ∧
    Eager.JSVal.str "50.00%" ≠ .str "50%" := by
  refine ⟨by decide, by decide⟩

/-- C6 (amended): under the Percentage tag the formatter multiplies by 100
only when the number lies strictly between -1 and 1, renders with fixed
two decimals - never stripping a trailing .00 - and suffixes the percent
sign; one half displays as 50.00%, and five halves, not being scaled,
displays as 2.50%. -/
theorem claim_C6 :
    (∀ q : JNum, Eager.formatValue (.num q) (some .percentage)
      = .str (toFixed2 (if jLt q (jOfNat 1) && jLt (jNeg (jOfNat 1)) q
          then jMul q (jOfNat 100) else q) ++ "%")) ∧
    Eager.formatValue (.num ⟨1, 2⟩) (some .percentage) = .str "50.00%" ∧
    Eager.formatValue (.num ⟨5, 2⟩) (some .percentage) = .str "2.50%" := by
  refine ⟨fun q => rfl, by decide, by decide⟩

/-- C7: whenever the fully substituted formula parses but evaluates to a
non-finite number, the evaluator returns the math-error sentinel; in
particular dividing one by zero does. -/
theorem claim_C7 :
    (∀ (data : Lazy.Store) (fuel : Nat) (key : String) (path : List String)
        (f1 f2 : List Char),
      key ∉ path →
      startsWithEq (Lazy.getContent data key) = true →
      Lazy.replaceFuncs
        (fun k => Lazy.calculateValue data fuel k (path ++ [key]))
        (trimChars ((Lazy.getContent data key).data.drop 1)) = some f1 →
      Lazy.replaceRefs
        (fun k => Lazy.calculateValue data fuel k (path ++ [key])) f1
        = some f2 →
      evalArith (caretSub f2) = some none →
      Lazy.calculateValue data (fuel + 1) key path = some "#ERROR_MATH") ∧
    Lazy.evaluate [("A1", "=1/0")] "A1" = some "#ERROR_MATH" :=
  ⟨lazy_calculateValue_mathError, by decide⟩

/-- C7, witness: the math-error path applied to the concrete store where A1
divides one by zero. -/
theorem claim_C7_witness :
    Lazy.calculateValue [("A1", "=1/0")] 1 "A1" [] = some "#ERROR_MATH" :=
  claim_C7.1 [("A1", "=1/0")] 0 "A1" [] "1/0".data "1/0".data
    (by decide) (by decide) (by decide) (by decide) (by decide)

/-- C8: every top-level evaluation completes - the fuel-indexed evaluator,
run with the store-size bound the cycle guard justifies, returns a value
for every store and address, including the cyclic stores. -/
theorem claim_C8 :
    (∀ (data : Lazy.Store) (key : String), (Lazy.evaluate data key).isSome) ∧
    (Lazy.evaluate [("A1", "=A1")] "A1").isSome ∧
    (Lazy.evaluate [("A1", "=B1"), ("B1", "=A1")] "A1").isSome := by
  refine ⟨Lazy.evaluate_isSome, by decide, by decide⟩

/-- C9: both range resolvers yield the same addresses whichever corner is
written first, and the concrete ranges A1:C3 and C3:A1 each resolve to the
same nine addresses in both implementations. -/
theorem claim_C9 :
    (∀ s t : List Char, ':' ∉ s → ':' ∉ t →
      Lazy.parseRange (String.mk (s ++ ':' :: t))
        = Lazy.parseRange (String.mk (t ++ ':' :: s))) ∧
    (∀ s t : List Char, ':' ∉ s → ':' ∉ t →
      Eager.parseRange (String.mk (s ++ ':' :: t))
        = Eager.parseRange (String.mk (t ++ ':' :: s))) ∧
    Lazy.parseRange "A1:C3"
      = ["A1", "A2", "A3", "B1", "B2", "B3", "C1", "C2", "C3"] ∧
    Lazy.parseRange "C3:A1"
      = ["A1", "A2", "A3", "B1", "B2", "B3", "C1", "C2", "C3"] ∧
    Eager.parseRange "A1:C3"
      = ["A1", "B1", "C1", "A2", "B2", "C2", "A3", "B3", "C3"] ∧
    Eager.parseRange "C3:A1"
      = ["A1", "B1", "C1", "A2", "B2", "C2", "A3", "B3", "C3"] := by
  refine ⟨lazy_parseRange_comm, eager_parseRange_comm, by decide, by decide,
    by decide, by decide⟩

/-- C9, witness: the symmetry equations applied at the concrete corners A1
and C3. -/
theorem claim_C9_witness :
    Lazy.parseRange (String.mk ("A1".data ++ ':' :: "C3".data))
      = Lazy.parseRange (String.mk ("C3".data ++ ':' :: "A1".data)) :=
  claim_C9.1 "A1".data "C3".data (by decide) (by decide)

/-- C10, counterexample: the hash marker does not distinguish error results
from every legitimate displayed value, because non-formula content passes
through verbatim: the raw text consisting of the math-error sentinel
displays exactly like a genuine division-by-zero error. -/
theorem claim_C10_counterexample :
    Lazy.evaluate [("A1", "#ERROR_MATH")] "A1" = some "#ERROR_MATH" ∧
    Lazy.evaluate [("A1", "=1/0")] "A1" = some "#ERROR_MATH" := by
  refine ⟨by decide, by decide⟩

/-- C10 (amended): every error result carries the reserved hash marker -
the three sentinels all begin with it - and a formula's computed numeric
display never does; but the marker separates errors only from computed
results, not from raw passthrough text, which may itself begin with the
hash. -/
theorem claim_C10 :
    (∀ (data : Lazy.Store) (fuel : Nat) (key : String) (path : List String)
        (r : String),
      Lazy.calculateValue data fuel key path = some r →
      r = Lazy.getContent data key ∨ r = "#CIRCULAR" ∨
        r = "#FÓRMULA_INVÁLIDA" ∨ r = "#ERROR_MATH" ∨
        r.data.head? ≠ some '#') ∧
    "#CIRCULAR".data.head? = some '#' ∧
    "#ERROR_MATH".data.head? = some '#' ∧
    "#FÓRMULA_INVÁLIDA".data.head? = some '#' := by
  refine ⟨lazy_calculateValue_shape, by decide, by decide, by decide⟩

/-- C10, witness: the shape disjunction at the self-reference store, whose
top-level display is the formatted number 0. -/
theorem claim_C10_witness :
    "0" = Lazy.getContent [("A1", "=A1")] "A1" ∨ ("0" : String) = "#CIRCULAR" ∨
      ("0" : String) = "#FÓRMULA_INVÁLIDA" ∨ ("0" : String) = "#ERROR_MATH" ∨
      ("0" : String).data.head? ≠ some '#' :=
  claim_C10.1 [("A1", "=A1")] 2 "A1" [] "0" (by decide)

end Pacur
